import Mathlib

/-!
Verification of the two plugin nodes of the `ComfyUI-stable-wildcards`
repository against their natural-language specification.

* `StableWildcard` (src/swnodes/StableWildcard.py): seeded wildcard
  resolution of prompt strings (`process_wildcards`), plus the node entry
  point `execute` that additionally attempts a best-effort write of the
  resolved prompt into the host metadata mapping.
* `SpotlessTextSplitByDelimiter` (src/swnodes/SpotlessTextSplitByDelimiter.py):
  splitting a text on a delimiter, dropping blank segments, and applying an
  offset/stride/limit window.

Strings are modelled as `List Char` wherever character-level work happens
(`String` is a structure over that list).  Python's dynamically typed inputs
are modelled by the small universe `PyObj`; fallible entry points return
`Except`.
-/

/-! ### The wildcard pattern `\x7b[^\x7b\x7d]+\x7d` -/

/-- A character that may appear inside a wildcard group: anything matched by
the character class `[^...]` of `StableWildcard.WILDCARD_PATTERN`, i.e. any
character except the two braces. -/
def braceFree (c : Char) : Bool :=
  !(c == '{') && !(c == '}')

/-- Greedy scan of the character class `[^...]+`: the longest brace-free
front segment of the list together with the remainder. -/
def spanBraceFree : List Char → List Char × List Char
  | [] => ([], [])
  | c :: cs =>
    if braceFree c then
      let r := spanBraceFree cs
      (c :: r.1, r.2)
    else ([], c :: cs)

/-- `re.search` of `StableWildcard.WILDCARD_PATTERN` on a string: try every
start position from the left; at a start `c`, the pattern matches iff `c`
is an opening brace, the greedy brace-free run after it is non-empty, and
the character ending that run is a closing brace.  On success we return the
text before the match, the interior of the braces and the text after the
match. -/
def findWildcard : List Char → Option (List Char × List Char × List Char)
  | [] => none
  | c :: cs =>
    let sp := spanBraceFree cs
    if c = '{' ∧ sp.1 ≠ [] ∧ sp.2.head? = some '}' then
      some ([], sp.1, sp.2.tail)
    else (findWildcard cs).map (fun r => (c :: r.1, r.2.1, r.2.2))

/-- Python's `str.split('|')`: cut at every pipe character, keeping empty
segments, so the result always has at least one element. -/
def splitPipe : List Char → List (List Char)
  | [] => [[]]
  | c :: cs =>
    if c = '|' then [] :: splitPipe cs
    else
      match splitPipe cs with
      | [] => [[c]]
      | g :: gs => (c :: g) :: gs

/-- `t.isPrefixOf s` written out for character lists. -/
def listStartsWith : List Char → List Char → Bool
  | [], _ => true
  | _ :: _, [] => false
  | t :: ts, s :: ss => (t == s) && listStartsWith ts ss

/-- Python's `s.replace(target, repl, 1)` for a non-empty `target`: replace
the first (leftmost) occurrence of `target` in `s` by `repl`; if `target`
does not occur, return `s` unchanged. -/
def replaceFirst (target repl : List Char) : List Char → List Char
  | [] => []
  | c :: cs =>
    if listStartsWith target (c :: cs) then
      repl ++ (c :: cs).drop target.length
    else c :: replaceFirst target repl cs

/-! ### The pseudo-random generator

`process_wildcards` builds `rng = Random(int(seed))` — a fresh CPython
`random.Random` — and only ever calls `rng.randint(0, len(ops) - 1)`.
The generator state is modelled as the seed it was constructed from
together with the number of draws already made; the Mersenne-Twister
stream itself is abstracted by a fixed deterministic mixing function.
Every claim below depends only on the draw being a deterministic function
of the seed and the draw position, and on it landing inside `[lo, hi]`,
never on particular stream values. -/
structure PyRandom where
  seed : Int
  calls : Nat
deriving DecidableEq

/-- The deterministic draw stream of a generator: a fixed mixing function of
the seed and the draw index. -/
def rngMix (seed : Int) (k : Nat) : Nat :=
  (seed.natAbs * 1103515245 + k * 12345 + 12345) % 2147483648

/-- `rng.randint(lo, hi)`: a draw in `[lo, hi]` (for `lo ≤ hi`) depending
only on the generator state, returned together with the advanced state. -/
def PyRandom.randint (r : PyRandom) (lo hi : Int) : Int × PyRandom :=
  (lo + Int.ofNat (rngMix r.seed r.calls % (hi - lo + 1).toNat),
   ⟨r.seed, r.calls + 1⟩)

/-! ### The search-and-replace loop of `process_wildcards` -/

/-- One iteration of the `while match:` loop in
`StableWildcard.process_wildcards` (lines 90–109): find the first wildcard,
split its interior on `|`, draw a random index with
`rng.randint(0, len(ops) - 1)`, pick that option, and replace the first
occurrence of the full matched text.  Returns `none` when no match remains
(the loop exit). -/
def wildcardStep (rng : PyRandom) (p : List Char) :
    Option (List Char × PyRandom) :=
  match findWildcard p with
  | none => none
  | some (_pre, run, _suf) =>
    let ops := splitPipe run
    let draw := rng.randint 0 ((ops.length : Int) - 1)
    let pick := ops.getD draw.1.toNat []
    some (replaceFirst ('{' :: (run ++ ['}'])) pick p, draw.2)

/-- The loop itself, with explicit fuel.  Each iteration strictly shortens
the string (a wildcard group is replaced by a strictly shorter option), so
fuel equal to the length of the string is always enough; the theorems below
prove that the loop has reached its fixpoint within that budget. -/
def resolveLoop : Nat → PyRandom → List Char → List Char
  | 0, _, p => p
  | fuel + 1, rng, p =>
    match wildcardStep rng p with
    | none => p
    | some (p', rng') => resolveLoop fuel rng' p'

/-- `StableWildcard.process_wildcards` on well-typed arguments: construct a
fresh generator from the seed alone (`rng = Random(int(seed))`; `int` is the
identity on an integer seed) and run the search-and-replace loop to
completion. -/
def processStr (prompt : String) (seed : Int) : String :=
  String.mk (resolveLoop prompt.data.length (PyRandom.mk seed 0) prompt.data)

/-- One host invocation of the resolver, threaded through an ambient shared
generator state (modelling module-level randomness an implementation could
have used): the code constructs its generator fresh from the seed, never
reads the ambient state, and leaves it untouched, so no generator state
survives the call. -/
def processWildcardsInvoke (shared : PyRandom) (prompt : String) (seed : Int) :
    String × PyRandom :=
  let rng := PyRandom.mk seed 0
  (String.mk (resolveLoop prompt.data.length rng prompt.data), shared)

/-- The spec-level reading of "the prompt contains a substring matching
`\x7b[^\x7b\x7d]+\x7d`": some decomposition exhibits an opening brace, a
non-empty brace-free interior and a closing brace. -/
def ContainsWildcard (s : String) : Prop :=
  ∃ pre run suf, run ≠ [] ∧ (∀ c ∈ run, braceFree c = true) ∧
    s.data = pre ++ '{' :: (run ++ '}' :: suf)

/-! ### Structural lemmas about the pattern matcher -/

theorem spanBraceFree_append_eq (cs : List Char) :
    (spanBraceFree cs).1 ++ (spanBraceFree cs).2 = cs := by
  induction cs with
  | nil => rfl
  | cons c cs ih =>
    by_cases h : braceFree c = true
    · simp [spanBraceFree, h, ih]
    · simp [spanBraceFree, h]

theorem spanBraceFree_all (cs : List Char) :
    ∀ c ∈ (spanBraceFree cs).1, braceFree c = true := by
  induction cs with
  | nil => intro c hc; simp [spanBraceFree] at hc
  | cons a cs ih =>
    intro c hc
    by_cases h : braceFree a = true
    · simp only [spanBraceFree, h, if_true] at hc
      rcases List.mem_cons.mp hc with rfl | hc'
      · exact h
      · exact ih c hc'
    · simp [spanBraceFree, h] at hc

theorem spanBraceFree_of_append (run : List Char) (x : Char) (rest : List Char)
    (hall : ∀ c ∈ run, braceFree c = true) (hx : braceFree x = false) :
    spanBraceFree (run ++ x :: rest) = (run, x :: rest) := by
  induction run with
  | nil => simp [spanBraceFree, hx]
  | cons a run ih =>
    have ha : braceFree a = true := hall a (by simp)
    have ih' := ih (fun c hc => hall c (by simp [hc]))
    simp [spanBraceFree, ha, ih']

theorem findWildcard_some (p pre run suf : List Char)
    (h : findWildcard p = some (pre, run, suf)) :
    p = pre ++ '{' :: (run ++ '}' :: suf) ∧ run ≠ [] ∧
      ∀ c ∈ run, braceFree c = true := by
  induction p generalizing pre with
  | nil => simp [findWildcard] at h
  | cons c cs ih =>
    rw [findWildcard] at h
    by_cases hc : c = '{' ∧ (spanBraceFree cs).1 ≠ [] ∧
        (spanBraceFree cs).2.head? = some '}'
    · rw [if_pos hc] at h
      obtain ⟨hc1, hc2, hc3⟩ := hc
      rw [Option.some.injEq, Prod.mk.injEq, Prod.mk.injEq] at h
      obtain ⟨hpre, hrun, hsuf⟩ := h
      cases hsp2 : (spanBraceFree cs).2 with
      | nil => rw [hsp2] at hc3; simp at hc3
      | cons d ds =>
        rw [hsp2] at hc3 hsuf
        simp only [List.head?_cons, Option.some.injEq] at hc3
        simp only [List.tail_cons] at hsuf
        subst hc1
        subst hc3
        refine ⟨?_, ?_, ?_⟩
        · rw [← hpre, List.nil_append]
          have hcs : cs = (spanBraceFree cs).1 ++ '}' :: ds := by
            conv_lhs => rw [← spanBraceFree_append_eq cs]
            rw [hsp2]
          rw [hcs, hrun, hsuf]
        · rw [← hrun]; exact hc2
        · rw [← hrun]; exact spanBraceFree_all cs
    · rw [if_neg hc] at h
      cases hf : findWildcard cs with
      | none => rw [hf] at h; simp at h
      | some r =>
        obtain ⟨r1, r2, r3⟩ := r
        rw [hf] at h
        simp only [Option.map_some', Option.some.injEq, Prod.mk.injEq] at h
        obtain ⟨hpre, hrun, hsuf⟩ := h
        obtain ⟨hdec, hne, hall⟩ := ih r1 (by rw [hf, hrun, hsuf])
        refine ⟨?_, hne, hall⟩
        rw [← hpre, hdec, List.cons_append]

theorem findWildcard_isSome (pre run suf : List Char)
    (hne : run ≠ []) (hall : ∀ c ∈ run, braceFree c = true) :
    (findWildcard (pre ++ '{' :: (run ++ '}' :: suf))).isSome = true := by
  induction pre with
  | nil =>
    rw [List.nil_append, findWildcard]
    have hsp : spanBraceFree (run ++ '}' :: suf) = (run, '}' :: suf) :=
      spanBraceFree_of_append run '}' suf hall rfl
    rw [if_pos]
    · rfl
    · rw [hsp]
      exact ⟨rfl, hne, rfl⟩
  | cons c pre ih =>
    rw [List.cons_append, findWildcard]
    by_cases hc : c = '{' ∧
        (spanBraceFree (pre ++ '{' :: (run ++ '}' :: suf))).1 ≠ [] ∧
        (spanBraceFree (pre ++ '{' :: (run ++ '}' :: suf))).2.head? = some '}'
    · rw [if_pos hc]; rfl
    · rw [if_neg hc]
      rw [Option.isSome_map']
      exact ih

/-! ### Structural lemmas about `replace(..., 1)` and `split('|')` -/

theorem listStartsWith_append (t r : List Char) :
    listStartsWith t (t ++ r) = true := by
  induction t with
  | nil => rfl
  | cons a t ih => simp [listStartsWith, ih]

theorem eq_of_listStartsWith (t : List Char) :
    ∀ s : List Char, listStartsWith t s = true → s = t ++ s.drop t.length := by
  induction t with
  | nil => intro s _; simp
  | cons a t ih =>
    intro s h
    cases s with
    | nil => simp [listStartsWith] at h
    | cons b s =>
      rw [listStartsWith, Bool.and_eq_true, beq_iff_eq] at h
      obtain ⟨rfl, h2⟩ := h
      have := ih s h2
      simpa using this

theorem drop_append_len (t r : List Char) : (t ++ r).drop t.length = r := by
  simp

theorem splitPipe_ne_nil (cs : List Char) : splitPipe cs ≠ [] := by
  induction cs with
  | nil => simp [splitPipe]
  | cons c cs ih =>
    rw [splitPipe]
    by_cases h : c = '|'
    · simp [h]
    · rw [if_neg h]
      cases hs : splitPipe cs with
      | nil => simp
      | cons g gs => simp

theorem splitPipe_length_pos (cs : List Char) : 0 < (splitPipe cs).length :=
  List.length_pos.mpr (splitPipe_ne_nil cs)

theorem splitPipe_mem (cs : List Char) :
    ∀ x ∈ splitPipe cs, x.length ≤ cs.length ∧ ∀ c ∈ x, c ∈ cs := by
  induction cs with
  | nil =>
    intro x hx
    simp [splitPipe] at hx
    subst hx; simp
  | cons a cs ih =>
    intro x hx
    rw [splitPipe] at hx
    by_cases h : a = '|'
    · rw [if_pos h] at hx
      rcases List.mem_cons.mp hx with rfl | hx'
      · simp
      · obtain ⟨h1, h2⟩ := ih x hx'
        exact ⟨Nat.le_succ_of_le h1, fun c hc => List.mem_cons_of_mem a (h2 c hc)⟩
    · rw [if_neg h] at hx
      cases hs : splitPipe cs with
      | nil => exact absurd hs (splitPipe_ne_nil cs)
      | cons g gs =>
        rw [hs] at hx
        rcases List.mem_cons.mp hx with rfl | hx'
        · have hg : g ∈ splitPipe cs := by rw [hs]; exact List.mem_cons_self g gs
          obtain ⟨h1, h2⟩ := ih g hg
          refine ⟨by simpa using Nat.succ_le_succ h1, ?_⟩
          intro c hc
          rcases List.mem_cons.mp hc with rfl | hc'
          · exact List.mem_cons_self c cs
          · exact List.mem_cons_of_mem a (h2 c hc')
        · have hx2 : x ∈ splitPipe cs := by rw [hs]; exact List.mem_cons_of_mem g hx'
          obtain ⟨h1, h2⟩ := ih x hx2
          exact ⟨Nat.le_succ_of_le h1, fun c hc => List.mem_cons_of_mem a (h2 c hc)⟩

theorem getD_mem {α : Type} (l : List α) (d : α) :
    ∀ i : Nat, i < l.length → l.getD i d ∈ l := by
  induction l with
  | nil => intro i hi; simp at hi
  | cons a l ih =>
    intro i hi
    cases i with
    | zero => simp
    | succ i =>
      have := ih i (by simpa using hi)
      simpa using Or.inr this

theorem randint_toNat_lt (r : PyRandom) (n : Nat) (h : 0 < n) :
    ((r.randint 0 ((n : Int) - 1)).1).toNat < n := by
  have h1 : ((n : Int) - 1 - 0 + 1) = (n : Int) := by omega
  simp only [PyRandom.randint, h1, Int.toNat_natCast, zero_add, Int.toNat_ofNat]
  exact Nat.mod_lt _ h

/-! ### One loop iteration: exact shape of the replacement -/

theorem replaceFirst_findWildcard (repl : List Char) :
    ∀ (p pre run suf : List Char), findWildcard p = some (pre, run, suf) →
      replaceFirst ('{' :: (run ++ ['}'])) repl p = pre ++ (repl ++ suf) := by
  intro p
  induction p with
  | nil => intro pre run suf h; simp [findWildcard] at h
  | cons c cs ih =>
    intro pre run suf h
    rw [findWildcard] at h
    by_cases hc : c = '{' ∧ (spanBraceFree cs).1 ≠ [] ∧
        (spanBraceFree cs).2.head? = some '}'
    · rw [if_pos hc] at h
      obtain ⟨hc1, hc2, hc3⟩ := hc
      rw [Option.some.injEq, Prod.mk.injEq, Prod.mk.injEq] at h
      obtain ⟨hpre, hrun, hsuf⟩ := h
      cases hsp2 : (spanBraceFree cs).2 with
      | nil => rw [hsp2] at hc3; simp at hc3
      | cons d ds =>
        rw [hsp2] at hc3 hsuf
        simp only [List.head?_cons, Option.some.injEq] at hc3
        simp only [List.tail_cons] at hsuf
        subst hc1
        subst hc3
        have hcs : cs = run ++ '}' :: suf := by
          conv_lhs => rw [← spanBraceFree_append_eq cs]
          rw [hsp2, hrun, hsuf]
        have heq : '{' :: cs = ('{' :: (run ++ ['}'])) ++ suf := by
          rw [hcs]; simp
        rw [replaceFirst, if_pos (by rw [heq]; exact listStartsWith_append _ _),
          heq, drop_append_len, ← hpre, List.nil_append]
    · rw [if_neg hc] at h
      cases hf : findWildcard cs with
      | none => rw [hf] at h; simp at h
      | some r =>
        obtain ⟨r1, r2, r3⟩ := r
        rw [hf] at h
        simp only [Option.map_some', Option.some.injEq, Prod.mk.injEq] at h
        obtain ⟨hpre, hrun, hsuf⟩ := h
        obtain ⟨hdec, hne, hall⟩ := findWildcard_some cs r1 run suf
          (by rw [hf, hrun, hsuf])
        have hnot : listStartsWith ('{' :: (run ++ ['}'])) (c :: cs) = false := by
          cases hb : listStartsWith ('{' :: (run ++ ['}'])) (c :: cs) with
          | false => rfl
          | true =>
            exfalso
            have hdec2 := eq_of_listStartsWith _ _ hb
            rw [List.cons_append] at hdec2
            injection hdec2 with hd1 hd2
            rw [List.append_assoc] at hd2
            simp only [List.singleton_append] at hd2
            have hsp := spanBraceFree_of_append run '}'
              (List.drop ('{' :: (run ++ ['}'])).length (c :: cs)) hall rfl
            rw [← hd2] at hsp
            exact hc ⟨hd1, by rw [hsp]; exact hne, by rw [hsp]; rfl⟩
        rw [replaceFirst, hnot]
        simp only [Bool.false_eq_true, if_false]
        rw [ih r1 run suf (by rw [hf, hrun, hsuf]), ← hpre, List.cons_append]

theorem wildcardStep_some (rng : PyRandom) (p p' : List Char) (rng' : PyRandom)
    (h : wildcardStep rng p = some (p', rng')) :
    ∃ pre run suf pick,
      findWildcard p = some (pre, run, suf) ∧
      pick ∈ splitPipe run ∧
      p = pre ++ '{' :: (run ++ '}' :: suf) ∧
      p' = pre ++ (pick ++ suf) := by
  rw [wildcardStep] at h
  cases hf : findWildcard p with
  | none => rw [hf] at h; simp at h
  | some r =>
    obtain ⟨pre, run, suf⟩ := r
    rw [hf] at h
    simp only [Option.some.injEq, Prod.mk.injEq] at h
    obtain ⟨hp', _hrng⟩ := h
    refine ⟨pre, run, suf,
      (splitPipe run).getD
        ((rng.randint 0 (((splitPipe run).length : Int) - 1)).1).toNat [],
      rfl, ?_, ?_, ?_⟩
    · refine getD_mem (splitPipe run) [] _ ?_
      exact randint_toNat_lt rng _ (splitPipe_length_pos run)
    · exact (findWildcard_some p pre run suf hf).1
    · rw [← hp']
      exact replaceFirst_findWildcard _ p pre run suf hf

theorem wildcardStep_length (rng : PyRandom) (p p' : List Char) (rng' : PyRandom)
    (h : wildcardStep rng p = some (p', rng')) :
    p'.length + 2 ≤ p.length := by
  obtain ⟨pre, run, suf, pick, hf, hmem, hp, hp'⟩ := wildcardStep_some rng p p' rng' h
  have h1 := (splitPipe_mem run pick hmem).1
  subst hp'
  rw [hp]
  simp only [List.length_append, List.length_cons]
  omega

theorem wildcardStep_count (rng : PyRandom) (p p' : List Char) (rng' : PyRandom)
    (h : wildcardStep rng p = some (p', rng')) :
    p'.count '{' + 1 = p.count '{' ∧ p'.count '}' + 1 = p.count '}' := by
  obtain ⟨pre, run, suf, pick, hf, hmem, hp, hp'⟩ := wildcardStep_some rng p p' rng' h
  have hall := (findWildcard_some p pre run suf hf).2.2
  have hpick := (splitPipe_mem run pick hmem).2
  have hro : run.count '{' = 0 := by
    rw [List.count_eq_zero]
    intro hm; have := hall '{' hm; simp [braceFree] at this
  have hrc : run.count '}' = 0 := by
    rw [List.count_eq_zero]
    intro hm; have := hall '}' hm; simp [braceFree] at this
  have hpo : pick.count '{' = 0 := by
    rw [List.count_eq_zero]
    intro hm; have := hall '{' (hpick '{' hm); simp [braceFree] at this
  have hpc : pick.count '}' = 0 := by
    rw [List.count_eq_zero]
    intro hm; have := hall '}' (hpick '}' hm); simp [braceFree] at this
  subst hp'
  rw [hp]
  constructor <;>
    · simp [List.count_append, List.count_cons, hro, hrc, hpo, hpc]
      omega

theorem resolveLoop_fixpoint (fuel : Nat) :
    ∀ (rng : PyRandom) (p : List Char), p.length ≤ fuel →
      findWildcard (resolveLoop fuel rng p) = none := by
  induction fuel with
  | zero =>
    intro rng p hp
    have hnil : p = [] := List.length_eq_zero.mp (Nat.le_zero.mp hp)
    subst hnil
    rfl
  | succ fuel ih =>
    intro rng p hp
    rw [resolveLoop]
    cases hs : wildcardStep rng p with
    | none =>
      rw [wildcardStep] at hs
      cases hf : findWildcard p with
      | none => rfl
      | some r => obtain ⟨a, b, c⟩ := r; rw [hf] at hs; simp at hs
    | some pr =>
      obtain ⟨p', rng'⟩ := pr
      have hlen := wildcardStep_length rng p p' rng' hs
      exact ih rng' p' (by omega)

theorem resolveLoop_of_none (fuel : Nat) (rng : PyRandom) (p : List Char)
    (h : findWildcard p = none) : resolveLoop fuel rng p = p := by
  cases fuel with
  | zero => rfl
  | succ fuel =>
    rw [resolveLoop]
    have hs : wildcardStep rng p = none := by rw [wildcardStep, h]
    rw [hs]

theorem string_mk_data (s : String) : String.mk s.data = s := rfl

theorem containsWildcard_isSome (s : String) (h : ContainsWildcard s) :
    (findWildcard s.data).isSome = true := by
  obtain ⟨pre, run, suf, hne, hall, hdec⟩ := h
  rw [hdec]
  exact findWildcard_isSome pre run suf hne hall

/-! ### Claims about the wildcard resolver -/

/-- C1: for every string prompt and integer seed, `process_wildcards` is
deterministic.  An invocation is modelled threaded through an arbitrary
ambient shared generator state; the output is independent of that state,
the shared state is returned untouched (no generator state survives the
call), and the output coincides with the pure function of `(prompt, seed)`,
because the generator is constructed fresh from the seed alone. -/
theorem stableWildcard_deterministic (e1 e2 : PyRandom) (p : String) (s : Int) :
    (processWildcardsInvoke e1 p s).1 = (processWildcardsInvoke e2 p s).1 ∧
    (processWildcardsInvoke e1 p s).2 = e1 ∧
    (processWildcardsInvoke e1 p s).1 = processStr p s :=
  ⟨rfl, rfl, rfl⟩

/-- C2: the search-and-replace loop of `process_wildcards` terminates.
Every iteration replaces one pattern match by a brace-free option, so both
the number of opening and of closing braces (and hence of resolvable
`\x7b...\x7d` groups) strictly decrease by exactly one; consequently the loop,
run with fuel equal to the length of the prompt, reaches a string with no
remaining match. -/
theorem stableWildcard_loop_decreases_and_terminates
    (p p' : List Char) (rng rng' : PyRandom)
    (h : wildcardStep rng p = some (p', rng')) :
    (p'.count '{' + 1 = p.count '{' ∧ p'.count '}' + 1 = p.count '}') ∧
    findWildcard (resolveLoop p.length rng p) = none :=
  ⟨wildcardStep_count rng p p' rng' h,
   resolveLoop_fixpoint p.length rng p (Nat.le_refl _)⟩

/-- Witness for C2 at a concrete iteration: on `"a\x7bx|y\x7db"` with a fresh
seed-0 generator, one step rewrites the string to `"ayb"`. -/
theorem stableWildcard_loop_decreases_witness :
    (("ayb".data).count '{' + 1 = ("a{x|y}b".data).count '{' ∧
     ("ayb".data).count '}' + 1 = ("a{x|y}b".data).count '}') ∧
    findWildcard
      (resolveLoop ("a{x|y}b".data).length (PyRandom.mk 0 0) ("a{x|y}b".data)) =
      none :=
  stableWildcard_loop_decreases_and_terminates ("a{x|y}b".data) ("ayb".data)
    (PyRandom.mk 0 0) (PyRandom.mk 0 1) rfl

/-- C6: a prompt containing no substring matching the wildcard pattern is
returned unchanged, for any seed. -/
theorem process_wildcards_no_wildcard_id (s : String) (seed : Int)
    (h : ¬ ContainsWildcard s) : processStr s seed = s := by
  have hnone : findWildcard s.data = none := by
    cases hf : findWildcard s.data with
    | none => rfl
    | some r =>
      obtain ⟨pre, run, suf⟩ := r
      obtain ⟨hdec, hne, hall⟩ := findWildcard_some s.data pre run suf hf
      exact absurd ⟨pre, run, suf, hne, hall, hdec⟩ h
  rw [processStr, resolveLoop_of_none _ _ _ hnone, string_mk_data]

/-- Witness for C6 on a concrete wildcard-free prompt. -/
theorem process_wildcards_no_wildcard_witness :
    processStr "no wildcards here" 7 = "no wildcards here" :=
  process_wildcards_no_wildcard_id "no wildcards here" 7
    (fun hc => absurd (containsWildcard_isSome _ hc) (by decide))

/-- C7: resolving `"a \x7bx|y\x7d b"` with seed 0 yields `"a x b"` or `"a y b"`
and nothing else, and repeated invocations (under any ambient states) agree. -/
theorem process_wildcards_two_options :
    (processStr "a {x|y} b" 0 = "a x b" ∨ processStr "a {x|y} b" 0 = "a y b") ∧
    ∀ e1 e2 : PyRandom,
      (processWildcardsInvoke e1 "a {x|y} b" 0).1 =
      (processWildcardsInvoke e2 "a {x|y} b" 0).1 :=
  ⟨Or.inr (by decide), fun _ _ => rfl⟩

/-- C9: at every loop iteration the matched interior is non-empty, splitting
it on `|` yields at least one option (so the `if not ops` branch is
unreachable), and the drawn index is strictly below the option count, so the
selection `ops[pick]` is in range. -/
theorem wildcard_options_nonempty_safe (p pre run suf : List Char)
    (rng : PyRandom) (h : findWildcard p = some (pre, run, suf)) :
    run ≠ [] ∧ 1 ≤ (splitPipe run).length ∧
    ((rng.randint 0 (((splitPipe run).length : Int) - 1)).1).toNat <
      (splitPipe run).length :=
  ⟨(findWildcard_some p pre run suf h).2.1,
   splitPipe_length_pos run,
   randint_toNat_lt rng _ (splitPipe_length_pos run)⟩

/-- Witness for C9 at the concrete match inside `"\x7ba|b\x7d"`. -/
theorem wildcard_options_nonempty_safe_witness :
    (['a', '|', 'b'] : List Char) ≠ [] ∧
    1 ≤ (splitPipe ['a', '|', 'b']).length ∧
    (((PyRandom.mk 7 0).randint 0
        (((splitPipe ['a', '|', 'b']).length : Int) - 1)).1).toNat <
      (splitPipe ['a', '|', 'b']).length :=
  wildcard_options_nonempty_safe ("{a|b}".data) [] ['a', '|', 'b'] []
    (PyRandom.mk 7 0) rfl

/-! ### Dynamically typed values and Python dicts

The node receives its inputs from the host untyped; `PyObj` is the small
universe of Python values the two entry points inspect: `None`, strings,
integers, and dicts (string-keyed, insertion-ordered, modelled as
association lists with unique keys). -/

inductive PyObj : Type where
  | pynone : PyObj
  | pystr : String → PyObj
  | pyint : Int → PyObj
  | pydict : List (String × PyObj) → PyObj

/-- `d.get(k)` / `k in d`: the value at the first occurrence of `k`;
`none` means the key is absent (a key bound to Python `None` yields
`some PyObj.pynone`, matching the distinction between `get` and `in`
only through the value). -/
def dictGet : List (String × PyObj) → String → Option PyObj
  | [], _ => none
  | (k, v) :: rest, key => if k = key then some v else dictGet rest key

/-- `d[k] = v`: replace the value at the first occurrence of `k` in place,
else append the new binding (Python dicts keep insertion order). -/
def dictSet : List (String × PyObj) → String → PyObj → List (String × PyObj)
  | [], key, v => [(key, v)]
  | (k, w) :: rest, key, v =>
    if k = key then (key, v) :: rest else (k, w) :: dictSet rest key v

/-- Remove every binding of `k` (used only to state frame conditions:
two dicts agree outside `k` iff erasing `k` from both gives equal lists). -/
def dictErase : List (String × PyObj) → String → List (String × PyObj)
  | [], _ => []
  | (k, v) :: rest, key =>
    if k = key then dictErase rest key else (k, v) :: dictErase rest key

/-- The entries of the dict stored under `k`, if any; `[]` when the key is
absent (used to phrase the state of a nested level before the write). -/
def subDict (d : List (String × PyObj)) (k : String) : List (String × PyObj) :=
  match dictGet d k with
  | some (PyObj.pydict e) => e
  | _ => []

/-- `isinstance(·, dict)` refinement of an optional value. -/
def asDict : Option PyObj → Option (List (String × PyObj))
  | some (PyObj.pydict d) => some d
  | _ => none

namespace StableWildcard

/-- `StableWildcard.process_wildcards` (lines 70–109) on raw inputs: the
four argument checks in source order (`prompt` absent, `prompt` not a
string, `seed` absent, `seed` not an integer) each raise `TypeError`
before any resolution work; on well-typed input the resolution itself
runs via `processStr`. -/
def process_wildcards (prompt seed : PyObj) : Except String String :=
  match prompt with
  | PyObj.pynone => Except.error "prompt cannot be None"
  | PyObj.pystr p =>
    match seed with
    | PyObj.pynone => Except.error "seed cannot be None"
    | PyObj.pyint n => Except.ok (processStr p n)
    | _ => Except.error "seed must be an integer"
  | _ => Except.error "prompt must be a string"

/-- The metadata-persistence step of `StableWildcard.execute`
(lines 130–160): if a unique id was supplied and `png_info` is a dict
whose `workflow` entry is a dict, create `workflow['extra']` (empty) if
absent, and if the `extra` entry is a dict create
`extra['stable-wildcards']` (empty) if absent, and if that entry is a dict
store the resolved prompt under the unique id.  Any structural mismatch
only logs a warning and leaves the state as already mutated (creations
happen only on absent keys, so failing checks imply nothing was touched
at that level yet). -/
def saveMetadata (uid : Option String) (png : PyObj) (resolved : String) :
    PyObj :=
  match uid, png with
  | some u, PyObj.pydict pe =>
    match asDict (dictGet pe "workflow") with
    | some wf =>
      let wf1 := if (dictGet wf "extra").isSome then wf
                 else dictSet wf "extra" (PyObj.pydict [])
      match asDict (dictGet wf1 "extra") with
      | some ex =>
        let ex1 := if (dictGet ex "stable-wildcards").isSome then ex
                   else dictSet ex "stable-wildcards" (PyObj.pydict [])
        match asDict (dictGet ex1 "stable-wildcards") with
        | some sw =>
          PyObj.pydict (dictSet pe "workflow" (PyObj.pydict
            (dictSet wf1 "extra" (PyObj.pydict
              (dictSet ex1 "stable-wildcards" (PyObj.pydict
                (dictSet sw u (PyObj.pystr resolved))))))))
        | none =>
          PyObj.pydict (dictSet pe "workflow" (PyObj.pydict
            (dictSet wf1 "extra" (PyObj.pydict ex1))))
      | none => PyObj.pydict (dictSet pe "workflow" (PyObj.pydict wf1))
    | none => png
  | _, _ => png

/-- `StableWildcard.execute` (lines 111–160): the same four argument
checks, then wildcard resolution, then the best-effort metadata write;
returns the resolved prompt together with the post-write metadata state. -/
def execute (prompt seed : PyObj) (uid : Option String) (png : PyObj) :
    Except String (String × PyObj) :=
  match prompt with
  | PyObj.pynone => Except.error "prompt cannot be None"
  | PyObj.pystr p =>
    match seed with
    | PyObj.pynone => Except.error "seed cannot be None"
    | PyObj.pyint n =>
      let resolved := processStr p n
      Except.ok (resolved, saveMetadata uid png resolved)
    | _ => Except.error "seed must be an integer"
  | _ => Except.error "prompt must be a string"

end StableWildcard

/-! ### Claims about the dynamic entry points -/

/-- C5: `process_wildcards` succeeds exactly when `prompt` is a string and
`seed` is an integer; in every other case (either absent/`None` or of a
wrong type) it raises immediately, producing no partial result. -/
theorem process_wildcards_raises_iff (p s : PyObj) :
    (∃ r, StableWildcard.process_wildcards p s = Except.ok r) ↔
      ((∃ t, p = PyObj.pystr t) ∧ (∃ n, s = PyObj.pyint n)) := by
  cases p <;> cases s <;> simp [StableWildcard.process_wildcards]

/-- C8: on a well-typed prompt and seed, `execute` never raises during the
persistence step: for every shape of the hidden inputs it returns the
resolved prompt, and with the unique id absent the metadata is returned
untouched (the write is skipped). -/
theorem execute_metadata_never_raises (p : String) (s : Int)
    (uid : Option String) (png : PyObj) :
    (StableWildcard.execute (PyObj.pystr p) (PyObj.pyint s) uid png).toOption.map
        Prod.fst = some (processStr p s) ∧
    StableWildcard.execute (PyObj.pystr p) (PyObj.pyint s) none png =
      Except.ok (processStr p s, png) := by
  refine ⟨rfl, ?_⟩
  cases png <;> rfl

/-! ### Frame lemmas for dict updates -/

theorem dictGet_set_self (d : List (String × PyObj)) (k : String) (v : PyObj) :
    dictGet (dictSet d k v) k = some v := by
  induction d with
  | nil => simp [dictSet, dictGet]
  | cons e d ih =>
    obtain ⟨k', w⟩ := e
    by_cases h : k' = k
    · simp [dictSet, h, dictGet]
    · simp [dictSet, h, dictGet, ih]

theorem dictErase_set (d : List (String × PyObj)) (k : String) (v : PyObj) :
    dictErase (dictSet d k v) k = dictErase d k := by
  induction d with
  | nil => simp [dictSet, dictErase]
  | cons e d ih =>
    obtain ⟨k', w⟩ := e
    by_cases h : k' = k
    · simp [dictSet, h, dictErase]
    · simp [dictSet, h, dictErase, ih]

/-- C10: when all structural checks pass (id supplied, `png_info` and its
`workflow` entry dicts, the `extra` and `stable-wildcards` levels dicts or
absent), the write touches exactly
`workflow['extra']['stable-wildcards'][id]`: at each level every other key
is left unchanged (equal after erasing the one touched key), the nested
containers are created only when absent (the untouched remainder below is
the previous content, `[]` when the level was absent), the stored value is
the resolved prompt, and the value returned by `execute` does not depend
on the write. -/
theorem execute_metadata_frame (p : String) (s : Int) (uid r : String)
    (pe wf : List (String × PyObj))
    (hw : dictGet pe "workflow" = some (PyObj.pydict wf))
    (hex : dictGet wf "extra" = none ∨
      ∃ ex, dictGet wf "extra" = some (PyObj.pydict ex))
    (hsw : dictGet (subDict wf "extra") "stable-wildcards" = none ∨
      ∃ sw, dictGet (subDict wf "extra") "stable-wildcards" =
        some (PyObj.pydict sw)) :
    (∃ wf' ex' sw',
      StableWildcard.saveMetadata (some uid) (PyObj.pydict pe) r =
        PyObj.pydict (dictSet pe "workflow" (PyObj.pydict wf')) ∧
      dictErase wf' "extra" = dictErase wf "extra" ∧
      dictGet wf' "extra" = some (PyObj.pydict ex') ∧
      dictErase ex' "stable-wildcards" =
        dictErase (subDict wf "extra") "stable-wildcards" ∧
      dictGet ex' "stable-wildcards" = some (PyObj.pydict sw') ∧
      dictErase sw' uid =
        dictErase (subDict (subDict wf "extra") "stable-wildcards") uid ∧
      dictGet sw' uid = some (PyObj.pystr r)) ∧
    (StableWildcard.execute (PyObj.pystr p) (PyObj.pyint s) (some uid)
        (PyObj.pydict pe)).toOption.map Prod.fst = some (processStr p s) := by
  refine ⟨?_, rfl⟩
  rcases hex with hnone | ⟨ex, hexEq⟩
  · have hsub : subDict wf "extra" = [] := by simp [subDict, hnone]
    refine ⟨dictSet (dictSet wf "extra" (PyObj.pydict [])) "extra"
        (PyObj.pydict (dictSet (dictSet [] "stable-wildcards" (PyObj.pydict []))
          "stable-wildcards"
          (PyObj.pydict (dictSet [] uid (PyObj.pystr r))))),
      dictSet (dictSet [] "stable-wildcards" (PyObj.pydict []))
        "stable-wildcards" (PyObj.pydict (dictSet [] uid (PyObj.pystr r))),
      dictSet [] uid (PyObj.pystr r), ?_, ?_, ?_, ?_, ?_, ?_, ?_⟩
    · simp [StableWildcard.saveMetadata, hw, hnone, asDict, dictGet_set_self,
        dictGet, dictSet]
    · rw [dictErase_set, dictErase_set]
    · rw [dictGet_set_self]
    · rw [hsub, dictErase_set, dictErase_set]
    · rw [dictGet_set_self]
    · rw [hsub, dictErase_set]
      rfl
    · rw [dictGet_set_self]
  · have hsub : subDict wf "extra" = ex := by simp [subDict, hexEq]
    rw [hsub] at hsw
    rcases hsw with hswn | ⟨sw0, hswEq⟩
    · refine ⟨dictSet wf "extra"
          (PyObj.pydict (dictSet
            (dictSet ex "stable-wildcards" (PyObj.pydict []))
            "stable-wildcards"
            (PyObj.pydict (dictSet [] uid (PyObj.pystr r))))),
        dictSet (dictSet ex "stable-wildcards" (PyObj.pydict []))
          "stable-wildcards" (PyObj.pydict (dictSet [] uid (PyObj.pystr r))),
        dictSet [] uid (PyObj.pystr r), ?_, ?_, ?_, ?_, ?_, ?_, ?_⟩
      · simp [StableWildcard.saveMetadata, hw, hexEq, hswn, asDict,
          dictGet_set_self, dictGet, dictSet]
      · rw [dictErase_set]
      · rw [dictGet_set_self]
      · rw [hsub, dictErase_set, dictErase_set]
      · rw [dictGet_set_self]
      · rw [hsub, dictErase_set]
        simp [subDict, hswn, dictErase]
      · rw [dictGet_set_self]
    · refine ⟨dictSet wf "extra"
          (PyObj.pydict (dictSet ex "stable-wildcards"
            (PyObj.pydict (dictSet sw0 uid (PyObj.pystr r))))),
        dictSet ex "stable-wildcards"
          (PyObj.pydict (dictSet sw0 uid (PyObj.pystr r))),
        dictSet sw0 uid (PyObj.pystr r), ?_, ?_, ?_, ?_, ?_, ?_, ?_⟩
      · simp [StableWildcard.saveMetadata, hw, hexEq, hswEq, asDict,
          dictGet_set_self, dictGet, dictSet]
      · rw [dictErase_set]
      · rw [dictGet_set_self]
      · rw [hsub, dictErase_set]
      · rw [dictGet_set_self]
      · rw [hsub, dictErase_set]
        simp [subDict, hswEq]
      · rw [dictGet_set_self]

/-- Witness for C10 at a concrete metadata blob (with `extra` absent, so
both nested containers are created by the write). -/
theorem execute_metadata_frame_witness :
    (∃ wf' ex' sw',
      StableWildcard.saveMetadata (some "5")
          (PyObj.pydict
            [("workflow", PyObj.pydict [("nodes", PyObj.pyint 3)])]) "out" =
        PyObj.pydict
          (dictSet [("workflow", PyObj.pydict [("nodes", PyObj.pyint 3)])]
            "workflow" (PyObj.pydict wf')) ∧
      dictErase wf' "extra" = dictErase [("nodes", PyObj.pyint 3)] "extra" ∧
      dictGet wf' "extra" = some (PyObj.pydict ex') ∧
      dictErase ex' "stable-wildcards" =
        dictErase (subDict [("nodes", PyObj.pyint 3)] "extra")
          "stable-wildcards" ∧
      dictGet ex' "stable-wildcards" = some (PyObj.pydict sw') ∧
      dictErase sw' "5" =
        dictErase (subDict (subDict [("nodes", PyObj.pyint 3)] "extra")
          "stable-wildcards") "5" ∧
      dictGet sw' "5" = some (PyObj.pystr "out")) ∧
    (StableWildcard.execute (PyObj.pystr "q") (PyObj.pyint 0) (some "5")
        (PyObj.pydict
          [("workflow", PyObj.pydict [("nodes", PyObj.pyint 3)])])).toOption.map
        Prod.fst = some (processStr "q" 0) :=
  execute_metadata_frame "q" 0 "5" "out"
    [("workflow", PyObj.pydict [("nodes", PyObj.pyint 3)])]
    [("nodes", PyObj.pyint 3)] rfl (Or.inl rfl) (Or.inl rfl)

/-! ### SpotlessTextSplitByDelimiter -/

/-- The whitespace characters of Python's default `str.strip()`. -/
def isSpaceChar (c : Char) : Bool :=
  c == ' ' || c == '\t' || c == '\n' || c == '\r' || c == '\x0b' || c == '\x0c'

/-- Python's `str.strip()`: remove leading and trailing whitespace. -/
def pyStrip (s : String) : String :=
  String.mk (((s.data.dropWhile isSpaceChar).reverse.dropWhile
    isSpaceChar).reverse)

/-- The value of a hexadecimal digit, if the character is one. -/
def hexVal (c : Char) : Option Nat :=
  if '0' ≤ c ∧ c ≤ '9' then some (c.toNat - '0'.toNat)
  else if 'a' ≤ c ∧ c ≤ 'f' then some (c.toNat - 'a'.toNat + 10)
  else if 'A' ≤ c ∧ c ≤ 'F' then some (c.toNat - 'A'.toNat + 10)
  else none

/-- The value of an octal digit, if the character is one. -/
def octVal (c : Char) : Option Nat :=
  if '0' ≤ c ∧ c ≤ '7' then some (c.toNat - '0'.toNat) else none

/-- Exactly `n` hexadecimal digits from the front of the list, as a value
(big-endian) with the remaining input; `none` if a digit is missing or not
hexadecimal (the decoder's truncated-escape error case). -/
def takeHex : Nat → List Char → Option (Nat × List Char)
  | 0, cs => some (0, cs)
  | _ + 1, [] => none
  | n + 1, c :: cs =>
    match hexVal c with
    | none => none
    | some d =>
      match takeHex n cs with
      | none => none
      | some (v, rest) => some (d * 16 ^ n + v, rest)

/-- One escape sequence of the `unicode_escape` codec: given the characters
after a backslash, the decoded output (empty for a backslash-newline line
continuation) together with the remaining input, or the decoder's error.
Handles the single-character escapes, 1–3 digit octal escapes (greedy), and
the fixed-width `x`/`u`/`U` hexadecimal escapes, raising on a trailing
backslash, a truncated or malformed hexadecimal form, and a code point
above U+10FFFF; an unrecognized escape keeps the backslash and the
character.  Two modelling boundaries, marked below, neither reachable from
any claim: named-character escapes (the backslash-N form, which needs the
external Unicode name database) and escapes denoting lone surrogate code
points (which a Lean `Char` cannot carry) are mapped to decoding errors. -/
def decodeEscape : List Char → Except String (List Char × List Char)
  | [] => Except.error "ValueError: Trailing backslash in string"
  | e :: cs =>
    if e = '\n' then Except.ok ([], cs)
    else if e = 'n' then Except.ok (['\n'], cs)
    else if e = 't' then Except.ok (['\t'], cs)
    else if e = 'r' then Except.ok (['\r'], cs)
    else if e = '\\' then Except.ok (['\\'], cs)
    else if e = '\'' then Except.ok (['\''], cs)
    else if e = '\"' then Except.ok (['\"'], cs)
    else if e = 'a' then Except.ok (['\x07'], cs)
    else if e = 'b' then Except.ok (['\x08'], cs)
    else if e = 'f' then Except.ok (['\x0c'], cs)
    else if e = 'v' then Except.ok (['\x0b'], cs)
    else
      match octVal e with
      | some d0 =>
        match cs with
        | c1 :: cs1 =>
          match octVal c1 with
          | some d1 =>
            match cs1 with
            | c2 :: cs2 =>
              match octVal c2 with
              | some d2 => Except.ok ([Char.ofNat (d0 * 64 + d1 * 8 + d2)], cs2)
              | none => Except.ok ([Char.ofNat (d0 * 8 + d1)], cs1)
            | [] => Except.ok ([Char.ofNat (d0 * 8 + d1)], [])
          | none => Except.ok ([Char.ofNat d0], cs)
        | [] => Except.ok ([Char.ofNat d0], [])
      | none =>
        if e = 'x' then
          match takeHex 2 cs with
          | some (v, rest) => Except.ok ([Char.ofNat v], rest)
          | none => Except.error "ValueError: truncated or invalid hex escape"
        else if e = 'u' then
          match takeHex 4 cs with
          | some (v, rest) =>
            if 0xD800 ≤ v ∧ v ≤ 0xDFFF then
              Except.error "surrogate code point (not representable here)"
            else Except.ok ([Char.ofNat v], rest)
          | none =>
            Except.error "ValueError: truncated or invalid unicode escape"
        else if e = 'U' then
          match takeHex 8 cs with
          | some (v, rest) =>
            if 0x10FFFF < v then
              Except.error "ValueError: illegal Unicode character"
            else if 0xD800 ≤ v ∧ v ≤ 0xDFFF then
              Except.error "surrogate code point (not representable here)"
            else Except.ok ([Char.ofNat v], rest)
          | none =>
            Except.error "ValueError: truncated or invalid Unicode escape"
        else if e = 'N' then
          Except.error "named character escape (not modelled)"
        else Except.ok (['\\', e], cs)

/-- The escape-decoding scan: each unit of fuel consumes at least one input
character (two or more for an escape sequence), so fuel equal to the input
length — as supplied by `unicodeEscape` — always suffices and the fallback
line is never reached. -/
def unicodeEscapeGo : Nat → List Char → Except String (List Char)
  | _, [] => Except.ok []
  | 0, rest => Except.ok rest
  | fuel + 1, c :: cs =>
    if c = '\\' then
      match decodeEscape cs with
      | Except.error e => Except.error e
      | Except.ok (out, rest) =>
        (unicodeEscapeGo fuel rest).map (fun r => out ++ r)
    else (unicodeEscapeGo fuel cs).map (fun r => c :: r)

/-- `codecs.decode(delimiter, 'unicode_escape')` on a `str` argument: the
string is first encoded to latin-1 (a character above U+00FF raises
`UnicodeEncodeError`), then the escape sequences are decoded by
`decodeEscape`, propagating its `ValueError` cases. -/
def unicodeEscape (ds : List Char) : Except String (List Char) :=
  if ds.all (fun c => c.toNat ≤ 255) then unicodeEscapeGo ds.length ds
  else
    Except.error "UnicodeEncodeError: latin-1 codec cannot encode character"

/-- Python's `text.split(sep)` for a non-empty separator: cut at every
non-overlapping occurrence from the left, keeping empty segments.  One unit
of fuel is spent per examined position and at least one character is
consumed per unit, so fuel equal to the length of the text (as supplied by
`splitSep`) always suffices and the fallback line is never reached. -/
def splitSepGo : Nat → List Char → List Char → List (List Char)
  | _, _, [] => [[]]
  | 0, _, rest => [rest]
  | fuel + 1, sep, c :: cs =>
    if listStartsWith sep (c :: cs) then
      [] :: splitSepGo fuel sep ((c :: cs).drop sep.length)
    else
      match splitSepGo fuel sep cs with
      | [] => [[c]]
      | g :: gs => (c :: g) :: gs

def splitSep (sep text : List Char) : List (List Char) :=
  splitSepGo text.length sep text

/-- The kept segments of `run` for an already-decoded separator: split the
text on it and drop every segment that is blank after stripping (the list
comprehension `[line for line in text.split(delimiter) if line.strip()]`);
kept segments stay un-trimmed and in input order. -/
def splitFiltered (sep : List Char) (text : String) : List String :=
  ((splitSep sep text.data).map String.mk).filter
    (fun line => !(pyStrip line).isEmpty)

/-- CPython list slicing `l[start : stop : step]` for non-negative bounds
and `step ≥ 1`: the elements at indices `start, start + step, ...` below
`stop` (an index beyond the end of the list contributes nothing). -/
def pySlice {α : Type} (l : List α) (start stop step : Nat) : List α :=
  (List.range' start ((stop - start + step - 1) / step) step).filterMap
    (fun i => l.get? i)

/-- The window the spec describes: the elements at indices
`start, start + (skip+1), start + 2*(skip+1), ...` of the list, at most
`maxc` of them. -/
def specSelect {α : Type} (l : List α) (start skip maxc : Nat) : List α :=
  (List.range maxc).filterMap (fun j => l.get? (start + j * (skip + 1)))

namespace SpotlessTextSplitByDelimiter

/-- `SpotlessTextSplitByDelimiter.run` (lines 42–52): an empty delimiter
gives the singleton stripped text; otherwise the delimiter is
escape-decoded — a decoding error propagates as the error the Python
`codecs.decode` call raises — and the text is split on the decoded
delimiter with blank segments dropped.  The Python slice
`arr[start_index : start_index + max_count * (skip_every+1) : skip_every+1]`
is applied to the resulting sequence. -/
def run (text delimiter : String) (start_index skip_every max_count : Nat) :
    Except String (List String) :=
  match (if delimiter = "" then Except.ok [pyStrip text]
         else
           match unicodeEscape delimiter.data with
           | Except.error e => Except.error e
           | Except.ok sep =>
             -- `text.split(sep)` raises when the decoded separator is
             -- empty (a backslash-newline line continuation can decode a
             -- non-empty delimiter to the empty string)
             if sep = [] then Except.error "ValueError: empty separator"
             else Except.ok (splitFiltered sep text)) with
  | Except.error e => Except.error e
  | Except.ok arr =>
    Except.ok (pySlice arr start_index
      (start_index + max_count * (skip_every + 1)) (skip_every + 1))

end SpotlessTextSplitByDelimiter

/-! ### The slice window -/

theorem range'_eq_map (s : Nat) : ∀ (n a : Nat),
    List.range' a n s = (List.range n).map (fun j => a + j * s) := by
  intro n
  induction n with
  | zero => intro a; simp
  | succ n ih =>
    intro a
    have hf : ((fun j => a + j * s) ∘ Nat.succ) =
        fun j => (a + s) + j * s := by
      funext j
      simp [Nat.succ_mul]
      ring
    rw [List.range'_succ, List.range_succ_eq_map, List.map_cons, List.map_map,
      hf, ← ih (a + s)]
    simp

theorem pySlice_window {α : Type} (l : List α) (si sk mc : Nat) :
    pySlice l si (si + mc * (sk + 1)) (sk + 1) = specSelect l si sk mc := by
  rw [pySlice, specSelect]
  have hn : (si + mc * (sk + 1) - si + (sk + 1) - 1) / (sk + 1) = mc := by
    rw [Nat.add_sub_cancel_left]
    have h1 : mc * (sk + 1) + (sk + 1) - 1 = sk + (sk + 1) * mc := by
      rw [Nat.mul_comm mc (sk + 1)]
      generalize (sk + 1) * mc = t
      omega
    rw [h1, Nat.add_mul_div_left _ _ (Nat.succ_pos sk),
      Nat.div_eq_of_lt (Nat.lt_succ_self sk), Nat.zero_add]
  rw [hn, range'_eq_map, List.filterMap_map]
  rfl

theorem get?_none_of_le {α : Type} (l : List α) :
    ∀ n, l.length ≤ n → l.get? n = none := by
  induction l with
  | nil => intro n _; cases n <;> rfl
  | cons a l ih =>
    intro n hn
    cases n with
    | zero => simp at hn
    | succ n => simpa using ih n (by simpa using hn)

theorem filterMap_none {α β : Type} (f : α → Option β) :
    ∀ l : List α, (∀ a ∈ l, f a = none) → l.filterMap f = [] := by
  intro l
  induction l with
  | nil => intro _; rfl
  | cons a l ih =>
    intro h
    simp only [List.filterMap_cons, h a (List.mem_cons_self a l)]
    exact ih (fun b hb => h b (List.mem_cons_of_mem a hb))

theorem specSelect_length_le {α : Type} (l : List α) (a k m : Nat) :
    (specSelect l a k m).length ≤ m := by
  rw [specSelect]
  calc (List.filterMap _ (List.range m)).length
      ≤ (List.range m).length := List.length_filterMap_le _ _
    _ = m := List.length_range m

theorem specSelect_empty {α : Type} (l : List α) (a k m : Nat)
    (h : l.length ≤ a) : specSelect l a k m = [] := by
  rw [specSelect]
  exact filterMap_none _ _
    (fun j _ => get?_none_of_le l _ (le_trans h (Nat.le_add_right a _)))

theorem specSelect_singleton {α : Type} (x : α) (sk mc : Nat) (hmc : 1 ≤ mc) :
    specSelect [x] 0 sk mc = [x] := by
  obtain ⟨k, rfl⟩ : ∃ k, mc = k + 1 := ⟨mc - 1, by omega⟩
  have htail : ∀ j ∈ (List.range k).map Nat.succ,
      ([x] : List α).get? (0 + j * (sk + 1)) = none := by
    intro j hj
    simp only [List.mem_map] at hj
    obtain ⟨i, _, rfl⟩ := hj
    refine get?_none_of_le _ _ ?_
    have h2 := Nat.mul_pos (Nat.succ_pos i) (Nat.succ_pos sk)
    rw [Nat.zero_add]
    exact h2
  rw [specSelect, List.range_succ_eq_map, List.filterMap_cons,
    filterMap_none _ _ htail]
  simp

/-! ### Claims about the delimiter splitter -/

deriving instance DecidableEq for Except

/-- C3, counterexample: the claim quantifies over every non-empty
delimiter, but for the delimiter consisting of a single backslash the
`codecs.decode(delimiter, 'unicode_escape')` call raises (a trailing
backslash is a `ValueError`), so `run` raises instead of returning the
windowed filtered sequence — which here the claim says would be
`["a,b"]`. -/
theorem splitByDelimiter_window_cex :
    SpotlessTextSplitByDelimiter.run "a,b" "\\" 0 0 10 ≠
      Except.ok ["a,b"] ∧
    (SpotlessTextSplitByDelimiter.run "a,b" "\\" 0 0 10).toOption = none := by
  decide

/-- C3, amended: for every non-empty delimiter whose escape-decoding
succeeds with a non-empty separator (a decoding failure, or an empty
decoded separator, propagates as an error instead), `run` returns the
spec's window over the filtered segment sequence of the decoded delimiter
(blank segments dropped, kept segments un-trimmed and in input order;
elements at indices `start_index + j*(skip_every+1)`), emits at most
`max_count` items, returns `[]` (not an error) when `start_index` is past
the end, and satisfies the two concrete examples. -/
theorem splitByDelimiter_window_spec (text delim : String) (si sk mc : Nat)
    (sep : List Char) (hd : delim ≠ "")
    (hsep : unicodeEscape delim.data = Except.ok sep) (hne : sep ≠ []) :
    SpotlessTextSplitByDelimiter.run text delim si sk mc =
      Except.ok (specSelect (splitFiltered sep text) si sk mc) ∧
    (specSelect (splitFiltered sep text) si sk mc).length ≤ mc ∧
    ((splitFiltered sep text).length ≤ si →
      SpotlessTextSplitByDelimiter.run text delim si sk mc = Except.ok []) ∧
    SpotlessTextSplitByDelimiter.run "a,,b,c" "," 0 0 10 =
      Except.ok ["a", "b", "c"] ∧
    SpotlessTextSplitByDelimiter.run "a,b,c,d,e" "," 1 1 2 =
      Except.ok ["b", "d"] := by
  have hrun : SpotlessTextSplitByDelimiter.run text delim si sk mc =
      Except.ok (specSelect (splitFiltered sep text) si sk mc) := by
    simp only [SpotlessTextSplitByDelimiter.run]
    rw [if_neg hd, hsep]
    simp only []
    rw [if_neg hne]
    show Except.ok (pySlice (splitFiltered sep text) si
      (si + mc * (sk + 1)) (sk + 1)) = _
    rw [pySlice_window]
  refine ⟨hrun, specSelect_length_le _ _ _ _, ?_, by decide, by decide⟩
  intro hlen
  rw [hrun, specSelect_empty _ _ _ _ hlen]

/-- Witness for the amended C3 at a concrete split. -/
theorem splitByDelimiter_window_spec_witness :
    SpotlessTextSplitByDelimiter.run "a,b" "," 0 0 2 =
      Except.ok (specSelect (splitFiltered [','] "a,b") 0 0 2) ∧
    (specSelect (splitFiltered [','] "a,b") 0 0 2).length ≤ 2 ∧
    ((splitFiltered [','] "a,b").length ≤ 0 →
      SpotlessTextSplitByDelimiter.run "a,b" "," 0 0 2 = Except.ok []) ∧
    SpotlessTextSplitByDelimiter.run "a,,b,c" "," 0 0 10 =
      Except.ok ["a", "b", "c"] ∧
    SpotlessTextSplitByDelimiter.run "a,b,c,d,e" "," 1 1 2 =
      Except.ok ["b", "d"] :=
  splitByDelimiter_window_spec "a,b" "," 0 0 2 [','] (by decide) (by decide)
    (by decide)

/-- C4, counterexample: the claim quantifies over every `start_index ≥ 0`,
but with the empty delimiter and `start_index = 1` the slice starts past
the singleton sequence, so `run` returns `[]`, not the singleton trimmed
text. -/
theorem splitByDelimiter_emptyDelim_cex :
    SpotlessTextSplitByDelimiter.run "x" "" 1 0 1 ≠
      Except.ok [pyStrip "x"] := by
  decide

/-- C4, amended: with the empty delimiter and `start_index = 0`, `run`
returns the single-element sequence containing the whitespace-trimmed
input text, for every text, every `skip_every` and every `max_count ≥ 1`;
in particular `split("x", "", 0, 0, 1) == ["x"]`. -/
theorem splitByDelimiter_emptyDelim_amended (text : String) (sk mc : Nat)
    (hmc : 1 ≤ mc) :
    SpotlessTextSplitByDelimiter.run text "" 0 sk mc =
      Except.ok [pyStrip text] ∧
    SpotlessTextSplitByDelimiter.run "x" "" 0 0 1 = Except.ok ["x"] := by
  refine ⟨?_, by decide⟩
  show Except.ok (pySlice [pyStrip text] 0 (0 + mc * (sk + 1)) (sk + 1)) =
    Except.ok [pyStrip text]
  rw [pySlice_window, specSelect_singleton _ _ _ hmc]

/-- Witness for the amended C4 on a concrete padded text. -/
theorem splitByDelimiter_emptyDelim_amended_witness :
    SpotlessTextSplitByDelimiter.run "  x  " "" 0 2 3 =
      Except.ok [pyStrip "  x  "] ∧
    SpotlessTextSplitByDelimiter.run "x" "" 0 0 1 = Except.ok ["x"] :=
  splitByDelimiter_emptyDelim_amended "  x  " 2 3 (by decide)
